import Mathlib

/-!
# Verification of camphr's config-resolution logic (`camphr/models.py`)

Shallow embedding of the pipeline-config resolution chain:
`_complement_trf_pipeline`, `_complement_trf_name`, `_correct_torch`,
`_resolve_label`, composed by `_correct_trf_pipeline` / `correct_nlp_config`,
plus the argument-shaping logic of `create_lang`.

Configs are ordered mappings; we embed them as association lists
(`List (String × _)`) whose key order is the Python dict insertion order.
Python dicts have unique keys, so theorems carry a `Nodup` hypothesis on the
key list where the proof needs it.  Settings values are either strings
(`trf_name_or_path`) or label lists (`labels`), captured by `Val`.

Lookups on omegaconf (1.x) `DictConfig` objects return `None` for a missing
key instead of raising; the embedding models this with `Option`-returning
lookup, missing keys being untruthy.
-/

set_option autoImplicit false

namespace Camphr

/-- A settings value: a string (e.g. `trf_name_or_path`) or a list of label
strings (`labels`). -/
inductive Val where
  | vstr (s : String)
  | vlist (l : List String)
  deriving DecidableEq, Repr

/-- Python truthiness of a settings value: empty string and empty list are
falsy. -/
def Val.truthy : Val → Bool
  | .vstr s => !(s == "")
  | .vlist l => !l.isEmpty

/-- Stage settings: an ordered key-value bag (a Python dict). -/
abbrev Settings := List (String × Val)

/-- A pipeline: ordered mapping from stage name to stage settings. -/
abbrev Pipeline := List (String × Settings)

/-- Dict lookup: value of the first (for a dict, only) entry with key `k`. -/
def getKey {α : Type} (s : List (String × α)) (k : String) : Option α :=
  match s with
  | [] => none
  | (k', v) :: rest => if k' = k then some v else getKey rest k

/-- Dict assignment `d[k] = v`: replaces the value in place if the key is
present (keeping its position), otherwise appends the new entry at the end,
exactly as a Python dict does. -/
def setKey {α : Type} (s : List (String × α)) (k : String) (v : α) : List (String × α) :=
  match s with
  | [] => [(k, v)]
  | (k', v') :: rest => if k' = k then (k, v) :: rest else (k', v') :: setKey rest k v

/-- Python `list.insert(i, x)` (for non-negative `i`; clamps past the end). -/
def listInsert {α : Type} (l : List α) (i : Nat) (x : α) : List α :=
  l.take i ++ x :: l.drop i

/-- Python `list.index`: index of the first occurrence (junk past the end when
absent; the source always guards with a membership test). -/
def pyIndex (l : List String) (k : String) : Nat :=
  match l with
  | [] => 0
  | x :: xs => if x = k then 0 else pyIndex xs k + 1

/-- Python `min` over a list of naturals (the source guards non-emptiness). -/
def pyMin (l : List Nat) : Option Nat :=
  match l with
  | [] => none
  | x :: xs => some (xs.foldl Nat.min x)

/-- Constant `TRANSFORMERS_TOKENIZER` (camphr.pipelines.trf_tokenizer, not under src/);
the factory name of the transformers tokenizer pipe. -/
def TRANSFORMERS_TOKENIZER : String := "transformers_tokenizer"

/-- Constant `TRANSFORMERS_MODEL` (camphr.pipelines.trf_model, not under src/); the
factory name of the transformers base-model pipe. -/
def TRANSFORMERS_MODEL : String := "transformers_model"

/-- Constant `TRANSFORMERS_SEQ_CLASSIFIER` (camphr.pipelines.trf_seq_classification,
not under src/); the factory name of the sequence-classification pipe. -/
def TRANSFORMERS_SEQ_CLASSIFIER : String := "transformers_sequence_classifier"

/-- Constant `TRANSFORMERS_NER` (camphr.pipelines.trf_ner, not under src/); the factory
name of the token-labeling (NER) pipe. -/
def TRANSFORMERS_NER : String := "transformers_ner"

/-- Constant `LABELS` (camphr.pipelines.trf_utils, not under src/); the settings key
holding the label specification. -/
def LABELS : String := "labels"

def TRF_BASES : List String := [TRANSFORMERS_TOKENIZER, TRANSFORMERS_MODEL]

def TRF_TASKS : List String := [TRANSFORMERS_SEQ_CLASSIFIER, TRANSFORMERS_NER]

def TRF_PIPES : List String := TRF_BASES ++ TRF_TASKS

/-- The `lang` section of the config (fields used by the resolution chain). -/
structure LangConfig where
  name : String
  torch : Bool
  deriving DecidableEq, Repr

/-- The top-level NLP config: a `lang` section and an ordered pipeline. -/
structure NLPConfig where
  lang : LangConfig
  pipeline : Pipeline
  deriving DecidableEq, Repr

/-- The source local `trf_task_indices`: the indices of the transformers task pipes present in
the name list, in `TRF_TASKS` order. -/
def taskIndices (names : List String) : List Nat :=
  (TRF_TASKS.filter (fun k => k ∈ names)).map (fun k => pyIndex names k)

/-- The base pipes absent from the given name list, in `TRF_BASES` order
(tokenizer before base model). -/
def missingBases (names : List String) : List String :=
  TRF_BASES.filter (fun k => ¬ k ∈ names)

/-- Pass `_complement_trf_pipeline`: if a transformers task pipe is present, insert
the missing base pipes (iterating `reversed(TRF_BASES)`) at the index of the
earliest task pipe, then rebuild the pipeline over the extended name list,
defaulting newly inserted names to empty settings. -/
def _complement_trf_pipeline (cfg : NLPConfig) : NLPConfig :=
  let pipe_names := cfg.pipeline.map Prod.fst
  match pyMin (taskIndices pipe_names) with
  | none => cfg
  | some trf_task_idx =>
    let new_names := TRF_BASES.reverse.foldl
      (fun ns k => if k ∈ ns then ns else listInsert ns trf_task_idx k) pipe_names
    { cfg with
      pipeline := new_names.map (fun k => (k, (getKey cfg.pipeline k).getD [])) }

/-- The shared-identifier settings key (`KEY` in `_complement_trf_name`). -/
def trfKey : String := "trf_name_or_path"

/-- Modelled from the spec: a rendering of the pipeline configuration
(`cfg.pipeline.pretty()`, omegaconf's YAML dump, an external collaborator);
only used as the payload of the missing-identifier error message. -/
def Val.render : Val → String
  | .vstr s => s
  | .vlist l => String.intercalate ", " l

/-- Modelled from the spec: pipeline rendering used in the error message. -/
def prettyPipeline (p : Pipeline) : String :=
  String.intercalate "; "
    (p.map (fun e =>
      e.1 ++ ": " ++ String.intercalate ", " (e.2.map (fun kv => kv.1 ++ "=" ++ kv.2.render))))

/-- The single explicit error of the resolution chain: no transformers pipe
declares `trf_name_or_path` (a `ValueError` in the source); it carries the
rendering of the current pipeline included in the message. -/
inductive ResolveError where
  | missingTrfName (rendering : String)
  deriving DecidableEq, Repr

/-- Test `set(cfg.pipeline.keys()) & set(TRF_PIPES)` is non-empty: some stage of the
pipeline is a transformers pipe. -/
def hasTrfPipe (p : Pipeline) : Bool :=
  p.any (fun e => e.1 ∈ TRF_PIPES)

/-- A stage's settings declare a truthy `trf_name_or_path` value (missing key
reads as `None`, which is falsy). -/
def declaresTrfName (s : Settings) : Bool :=
  ((getKey s trfKey).map Val.truthy).getD false

/-- One step of the scan `for k, v in cfg.pipeline.items(): if k in TRF_PIPES
and v[KEY]: VAL = v[KEY]` — last truthy value wins; a missing key reads as
`None` (omegaconf 1.x) and is untruthy. -/
def scanStep (acc : Val) (e : String × Settings) : Val :=
  if e.1 ∈ TRF_PIPES then
    match getKey e.2 trfKey with
    | some w => if w.truthy then w else acc
    | none => acc
  else acc

/-- The whole scan, starting from `VAL = ""`. -/
def scanTrfName (p : Pipeline) : Val :=
  p.foldl scanStep (Val.vstr "")

/-- Pass `_complement_trf_name`: propagate the shared `trf_name_or_path` value onto
every transformers pipe; error (with pipeline rendering) when the scan finds
no truthy value; no-op when no transformers pipe is present. -/
def _complement_trf_name (cfg : NLPConfig) : Except ResolveError NLPConfig :=
  if hasTrfPipe cfg.pipeline then
    let VAL := scanTrfName cfg.pipeline
    if VAL.truthy then
      Except.ok { cfg with
        pipeline := cfg.pipeline.map (fun e =>
          if e.1 ∈ TRF_PIPES then (e.1, setKey e.2 trfKey VAL) else e) }
    else
      Except.error (ResolveError.missingTrfName (prettyPipeline cfg.pipeline))
  else Except.ok cfg

/-- Modelled from the spec: `get_biluo_labels` (camphr.ner_labels.utils, not
under src/) expands each base label into Begin/In/Last/Unit variants and adds
the Outside tag. -/
def get_biluo_labels (labels : List String) : List String :=
  (labels.map (fun l => ["B-" ++ l, "I-" ++ l, "L-" ++ l, "U-" ++ l])).flatten ++ ["O"]

/-- Modelled from the spec: `get_labels` (camphr.utils, not under src/)
resolves a label spec; an inline label list resolves to itself (reading an
external label resource is the collaborator's concern and out of scope). -/
def get_labels (labels : List String) : List String := labels

/-- One stage update of `_resolve_label`: `s = cfg.pipeline[stage]; if s:
s[LABELS] = f(s[LABELS])`.  Applied only when the stage is present with
non-empty (truthy) settings; the `labels` value is expected to be a list —
a missing or non-list value is handed to the external label collaborator,
whose behavior on such input is out of the modelled domain, so it is left
unchanged here. -/
def updateStageLabels (pl : Pipeline) (stage : String) (f : List String → List String) :
    Pipeline :=
  match getKey pl stage with
  | some s =>
    if s.isEmpty then pl
    else
      match getKey s LABELS with
      | some (Val.vlist l) => setKey pl stage (setKey s LABELS (Val.vlist (f l)))
      | _ => pl
  | none => pl

/-- The per-stage effect of `_resolve_label` on a present stage's settings:
on truthy (non-empty) settings whose `labels` value is a list, rewrite it
through `f` in place; otherwise leave the settings unchanged. -/
def stageLabelT (f : List String → List String) (s : Settings) : Settings :=
  if s.isEmpty then s
  else
    match getKey s LABELS with
    | some (Val.vlist l) => setKey s LABELS (Val.vlist (f l))
    | _ => s

/-- Pass `_resolve_label`: BILUO-expand the NER stage's labels, then resolve the
sequence-classifier stage's labels, each only when the stage is present with
truthy settings. -/
def _resolve_label (cfg : NLPConfig) : NLPConfig :=
  { cfg with
    pipeline :=
      updateStageLabels
        (updateStageLabels cfg.pipeline TRANSFORMERS_NER get_biluo_labels)
        TRANSFORMERS_SEQ_CLASSIFIER get_labels }

/-- Pass `_correct_torch`: if any transformers pipe is in the pipeline, force
`lang.torch = true`; otherwise leave the config untouched. -/
def _correct_torch (cfg : NLPConfig) : NLPConfig :=
  if hasTrfPipe cfg.pipeline then
    { cfg with lang := { cfg.lang with torch := true } }
  else cfg

/-- Pass `_correct_trf_pipeline`: complement missing pipes, complement the shared
name, correct the torch flag, in that order (the identifier-propagation error
propagates to the caller unchanged). -/
def _correct_trf_pipeline (cfg : NLPConfig) : Except ResolveError NLPConfig :=
  match _complement_trf_name (_complement_trf_pipeline cfg) with
  | Except.error e => Except.error e
  | Except.ok c => Except.ok (_correct_torch c)

/-- Function `correct_nlp_config`: the full resolution chain. -/
def correct_nlp_config (cfg : NLPConfig) : Except ResolveError NLPConfig :=
  match _correct_trf_pipeline cfg with
  | Except.error e => Except.error e
  | Except.ok c => Except.ok (_resolve_label c)

/-- Plain-string dicts, for `create_lang` keyword arguments. -/
abbrev StrDict := List (String × String)

/-- Merge `cytoolz.merge a b`: entries of `b` override entries of `a`; key order is
`a`'s keys first, then new keys of `b` in order. -/
def dictMerge (a b : StrDict) : StrDict :=
  b.foldl (fun acc e => setKey acc e.1 e.2) a

/-- Keyword arguments for the language-host factory: the `meta` mapping is the
one key `create_lang` shapes; all other entries ride along untouched. -/
structure Kwargs where
  meta : Option StrDict
  rest : StrDict
  deriving DecidableEq, Repr

/-- The `lang` section as `create_lang` consumes it. -/
structure LangFullConfig where
  name : String
  torch : Bool
  optimizer : StrDict
  kwargs : Option Kwargs
  deriving DecidableEq, Repr

/-- The constructed language host (the external factory's arguments are the
contract here): either a `TorchLanguage` with a fresh vocab, the optimizer
config and the merged kwargs, or a plain `spacy.blank` host. -/
inductive LangHost where
  | torchLang (freshVocab : Bool) (optimizer : StrDict) (kwargs : Kwargs)
  | blank (name : String) (kwargs : Kwargs)
  deriving DecidableEq, Repr

/-- Function `create_lang`: normalize `kwargs` (default empty), and if torch-mode is
requested merge `{"lang": cfg.name}` into `kwargs["meta"]` (defaulting the
absent key to `{}`) before constructing the torch host. -/
def create_lang (cfg : LangFullConfig) : LangHost :=
  let kwargs := cfg.kwargs.getD { meta := none, rest := [] }
  if cfg.torch then
    let meta := dictMerge (kwargs.meta.getD []) [("lang", cfg.name)]
    LangHost.torchLang true cfg.optimizer { kwargs with meta := some meta }
  else
    LangHost.blank cfg.name kwargs

/-! ## Example configurations (used by witnesses) -/

/-- The end-to-end example config: a lone sequence-classifier stage declaring
`trf_name_or_path = "m1"` and inline labels, with `lang.torch = false`. -/
def exampleSeqClfConfig : NLPConfig :=
  { lang := { name := "en", torch := false },
    pipeline := [(TRANSFORMERS_SEQ_CLASSIFIER,
      [(trfKey, Val.vstr "m1"), (LABELS, Val.vlist ["pos", "neg"])])] }

/-- An example config with a transformers pipe and `torch = false`. -/
def exampleTorchOffConfig : NLPConfig :=
  { lang := { name := "en", torch := false },
    pipeline := [(TRANSFORMERS_MODEL, [(trfKey, Val.vstr "m1")])] }

/-- The default (empty) keyword-argument bag, `cfg.kwargs or {}`. -/
def emptyKwargs : Kwargs := { meta := none, rest := [] }

/-- An example `lang` section: torch mode, kwargs whose `meta` already holds
an entry. -/
def exampleLangSection : LangFullConfig :=
  { name := "en", torch := true, optimizer := [("lr", "0.01")],
    kwargs := some { meta := some [("author", "x")], rest := [("foo", "bar")] } }

/-- An example pipeline with transformers pipes but no declared identifier. -/
def exampleNoNameConfig : NLPConfig :=
  { lang := { name := "en", torch := false },
    pipeline := [("sentencizer", []), (TRANSFORMERS_MODEL, [])] }

/-- A pipeline whose base-model stage lacks the identifier key entirely. -/
def exampleKeylessConfig : NLPConfig :=
  { lang := { name := "en", torch := true },
    pipeline :=
      [(TRANSFORMERS_MODEL, []),
       (TRANSFORMERS_NER, [(trfKey, Val.vstr "m2")])] }

/-- An example pipeline where two transformers stages declare distinct
identifiers; the base-model stage is the last declarer. -/
def exampleTwoNamesConfig : NLPConfig :=
  { lang := { name := "en", torch := true },
    pipeline :=
      [(TRANSFORMERS_TOKENIZER, [(trfKey, Val.vstr "a")]),
       (TRANSFORMERS_MODEL, [(trfKey, Val.vstr "b")]),
       ("sentencizer", [])] }


/-- An example pipeline with a task stage and both base stages present. -/
def exampleFullConfig : NLPConfig :=
  { lang := { name := "en", torch := true },
    pipeline :=
      [(TRANSFORMERS_TOKENIZER, []),
       (TRANSFORMERS_MODEL, [(trfKey, Val.vstr "m1")]),
       (TRANSFORMERS_NER, [(LABELS, Val.vlist ["A"])])] }

/-- The expected result of resolving `exampleSeqClfConfig`. -/
def resolvedSeqClfConfig : NLPConfig :=
  { lang := { name := "en", torch := true },
    pipeline :=
      [(TRANSFORMERS_TOKENIZER, [(trfKey, Val.vstr "m1")]),
       (TRANSFORMERS_MODEL, [(trfKey, Val.vstr "m1")]),
       (TRANSFORMERS_SEQ_CLASSIFIER,
         [(trfKey, Val.vstr "m1"), (LABELS, Val.vlist ["pos", "neg"])])] }

/-! ## Association-list lemmas -/

theorem getKey_setKey_self {α : Type} (s : List (String × α)) (k : String) (v : α) :
    getKey (setKey s k v) k = some v := by
  induction s with
  | nil => simp [setKey, getKey]
  | cons e rest ih =>
    by_cases h : e.1 = k
    · simp [setKey, h, getKey]
    · simp [setKey, h, getKey, ih]

theorem getKey_setKey_ne {α : Type} (s : List (String × α)) (k k' : String) (v : α)
    (h : k' ≠ k) : getKey (setKey s k v) k' = getKey s k' := by
  induction s with
  | nil => simp [setKey, getKey, Ne.symm h]
  | cons e rest ih =>
    by_cases he : e.1 = k
    · simp [setKey, he, getKey, Ne.symm h]
    · simp [setKey, he, getKey, ih]

theorem getKey_eq_none_iff {α : Type} (s : List (String × α)) (k : String) :
    getKey s k = none ↔ k ∉ s.map Prod.fst := by
  induction s with
  | nil => simp [getKey]
  | cons e rest ih =>
    by_cases h : e.1 = k
    · simp [getKey, h]
    · simp [getKey, h, ih, Ne.symm h]

theorem getKey_of_mem_nodup {α : Type} (s : List (String × α))
    (hnd : (s.map Prod.fst).Nodup) {k : String} {v : α} (h : (k, v) ∈ s) :
    getKey s k = some v := by
  induction s with
  | nil => simp at h
  | cons e rest ih =>
    simp only [List.map_cons, List.nodup_cons] at hnd
    rcases List.mem_cons.mp h with h1 | h2
    · simp [getKey, ← h1]
    · have hne : e.1 ≠ k := by
        intro hkk
        exact hnd.1 (hkk ▸ (List.mem_map.mpr ⟨(k, v), h2, rfl⟩))
      simp [getKey, hne, ih hnd.2 h2]

theorem setKey_map_fst_of_mem {α : Type} (s : List (String × α)) (k : String) (v : α)
    (h : k ∈ s.map Prod.fst) : (setKey s k v).map Prod.fst = s.map Prod.fst := by
  induction s with
  | nil => simp at h
  | cons e rest ih =>
    by_cases he : e.1 = k
    · simp [setKey, he]
    · have : k ∈ rest.map Prod.fst := by
        rcases List.mem_map.mp h with ⟨p, hp, hfst⟩
        rcases List.mem_cons.mp hp with h1 | h2
        · exact absurd (h1 ▸ hfst) he
        · exact List.mem_map.mpr ⟨p, h2, hfst⟩
      simp [setKey, he, ih this]

theorem getKey_append_some {α : Type} (a b : List (String × α)) (k : String) {v : α}
    (h : getKey a k = some v) : getKey (a ++ b) k = some v := by
  induction a with
  | nil => simp [getKey] at h
  | cons e rest ih =>
    by_cases he : e.1 = k
    · simpa [getKey, he] using h
    · simp [getKey, he] at h ⊢
      exact ih h

theorem getKey_append_none {α : Type} (a b : List (String × α)) (k : String)
    (h : getKey a k = none) : getKey (a ++ b) k = getKey b k := by
  induction a with
  | nil => simp
  | cons e rest ih =>
    by_cases he : e.1 = k
    · simp [getKey, he] at h
    · simp [getKey, he] at h ⊢
      exact ih h

/-! ## Index and minimum lemmas -/

theorem pyIndex_lt_length (l : List String) (k : String) (h : k ∈ l) :
    pyIndex l k < l.length := by
  induction l with
  | nil => simp at h
  | cons x xs ih =>
    by_cases hx : x = k
    · simp [pyIndex, hx]
    · rcases List.mem_cons.mp h with h1 | h2
      · exact absurd h1.symm hx
      · simpa [pyIndex, hx, Nat.succ_lt_succ_iff] using ih h2

theorem get_pyIndex (l : List String) (k : String) (h : k ∈ l)
    (hlt : pyIndex l k < l.length) : l.get ⟨pyIndex l k, hlt⟩ = k := by
  induction l with
  | nil => simp at h
  | cons x xs ih =>
    by_cases hx : x = k
    · simp [pyIndex, hx]
    · rcases List.mem_cons.mp h with h1 | h2
      · exact absurd h1.symm hx
      · have hlt2 : pyIndex xs k < xs.length := pyIndex_lt_length xs k h2
        simpa [pyIndex, hx] using ih h2 hlt2

theorem get_lt_pyIndex (l : List String) (k : String) (j : Nat)
    (hj : j < pyIndex l k) (hjl : j < l.length) : l.get ⟨j, hjl⟩ ≠ k := by
  induction l generalizing j with
  | nil => simp at hjl
  | cons x xs ih =>
    by_cases hx : x = k
    · simp [pyIndex, hx] at hj
    · cases j with
      | zero => simpa using hx
      | succ j2 =>
        have hj2 : j2 < pyIndex xs k := by
          have := hj
          simp [pyIndex, hx, Nat.succ_lt_succ_iff] at this
          exact this
        simpa using ih j2 hj2 (Nat.lt_of_succ_lt_succ hjl)

theorem foldl_min_le_init (xs : List Nat) (x : Nat) : xs.foldl Nat.min x ≤ x := by
  induction xs generalizing x with
  | nil => exact Nat.le_refl x
  | cons y ys ih =>
    exact Nat.le_trans (ih (Nat.min x y)) (Nat.min_le_left x y)

theorem foldl_min_le_mem (xs : List Nat) (x : Nat) (j : Nat) (hj : j ∈ xs) :
    xs.foldl Nat.min x ≤ j := by
  induction xs generalizing x with
  | nil => simp at hj
  | cons y ys ih =>
    rcases List.mem_cons.mp hj with h1 | h2
    · subst h1
      exact Nat.le_trans (foldl_min_le_init ys (Nat.min x j)) (Nat.min_le_right x j)
    · exact ih (Nat.min x y) h2

theorem foldl_min_mem (xs : List Nat) (x : Nat) :
    xs.foldl Nat.min x = x ∨ xs.foldl Nat.min x ∈ xs := by
  induction xs generalizing x with
  | nil => exact Or.inl rfl
  | cons y ys ih =>
    rcases ih (Nat.min x y) with h | h
    · rw [List.foldl_cons, h]
      rcases Nat.le_total x y with hxy | hyx
      · exact Or.inl (Nat.min_eq_left hxy)
      · exact Or.inr (by simp [Nat.min_eq_right hyx])
    · exact Or.inr (List.mem_cons_of_mem y h)

theorem pyMin_mem (l : List Nat) (i : Nat) (h : pyMin l = some i) : i ∈ l := by
  cases l with
  | nil => simp [pyMin] at h
  | cons x xs =>
    simp [pyMin] at h
    rcases foldl_min_mem xs x with h2 | h2
    · rw [← h, h2]
      exact List.mem_cons_self x xs
    · rw [← h]
      exact List.mem_cons_of_mem x h2

theorem pyMin_le (l : List Nat) (i : Nat) (h : pyMin l = some i) :
    ∀ j ∈ l, i ≤ j := by
  intro j hj
  cases l with
  | nil => simp at hj
  | cons x xs =>
    simp [pyMin] at h
    rcases List.mem_cons.mp hj with h1 | h2
    · exact h ▸ h1 ▸ foldl_min_le_init xs x
    · exact h ▸ foldl_min_le_mem xs x j h2

theorem pyMin_eq_none_iff (l : List Nat) : pyMin l = none ↔ l = [] := by
  cases l <;> simp [pyMin]

/-! ## Pipeline-completion lemmas -/

theorem mem_listInsert {α : Type} (l : List α) (i : Nat) (x a : α) :
    a ∈ listInsert l i x ↔ a = x ∨ a ∈ l := by
  unfold listInsert
  constructor
  · intro h
    rcases List.mem_append.mp h with h1 | h2
    · exact Or.inr (List.take_subset i l h1)
    · rcases List.mem_cons.mp h2 with h3 | h4
      · exact Or.inl h3
      · exact Or.inr (List.drop_subset i l h4)
  · intro h
    rcases h with h1 | h2
    · exact List.mem_append_right _ (h1 ▸ List.mem_cons_self x _)
    · have h5 : a ∈ l.take i ++ l.drop i := by
        rw [List.take_append_drop]
        exact h2
      rcases List.mem_append.mp h5 with h3 | h4
      · exact List.mem_append_left _ h3
      · exact List.mem_append_right _ (List.mem_cons_of_mem x h4)

theorem pyIndex_le_of_get (l : List String) (j : Nat) (hj : j < l.length) :
    pyIndex l (l.get ⟨j, hj⟩) ≤ j := by
  induction l generalizing j with
  | nil => simp at hj
  | cons x xs ih =>
    cases j with
    | zero => simp [pyIndex]
    | succ j2 =>
      have hj2 : j2 < xs.length := Nat.lt_of_succ_lt_succ hj
      have hget : (x :: xs).get ⟨j2 + 1, hj⟩ = xs.get ⟨j2, hj2⟩ := rfl
      rw [hget]
      show (if x = xs.get ⟨j2, hj2⟩ then 0 else pyIndex xs (xs.get ⟨j2, hj2⟩) + 1) ≤ j2 + 1
      by_cases hx : x = xs.get ⟨j2, hj2⟩
      · rw [if_pos hx]
        exact Nat.zero_le _
      · rw [if_neg hx]
        exact Nat.succ_le_succ (ih j2 hj2)

theorem listInsert_listInsert {α : Type} (l : List α) (i : Nat) (x y : α)
    (hi : i ≤ l.length) :
    listInsert (listInsert l i x) i y = l.take i ++ y :: x :: l.drop i := by
  unfold listInsert
  have hlen2 : (l.take i).length = i := by
    rw [List.length_take]
    omega
  have h1 : List.take i (List.take i l ++ x :: List.drop i l) = List.take i l := by
    rw [List.take_append_of_le_length (le_of_eq hlen2.symm), List.take_take, Nat.min_self]
  have h2 : List.drop i (List.take i l ++ x :: List.drop i l) = x :: List.drop i l := by
    rw [List.drop_append_of_le_length (le_of_eq hlen2.symm),
      List.drop_eq_nil_of_le (le_of_eq hlen2), List.nil_append]
  rw [h1, h2]

theorem taskIndices_some (names : List String) (i : Nat)
    (hi : pyMin (taskIndices names) = some i) :
    ∃ t ∈ TRF_TASKS, t ∈ names ∧ i = pyIndex names t := by
  have hmem := pyMin_mem _ _ hi
  unfold taskIndices at hmem
  rcases List.mem_map.mp hmem with ⟨t, ht, hidx⟩
  have ht2 := List.mem_filter.mp ht
  exact ⟨t, ht2.1, of_decide_eq_true ht2.2, hidx.symm⟩

theorem taskIdx_lt (names : List String) (i : Nat)
    (hi : pyMin (taskIndices names) = some i) : i < names.length := by
  rcases taskIndices_some names i hi with ⟨t, _, htN, hidx⟩
  rw [hidx]
  exact pyIndex_lt_length names t htN

theorem taskIdx_le_task (names : List String) (i : Nat)
    (hi : pyMin (taskIndices names) = some i)
    (t : String) (ht : t ∈ TRF_TASKS) (htN : t ∈ names) : i ≤ pyIndex names t := by
  apply pyMin_le _ _ hi
  unfold taskIndices
  exact List.mem_map.mpr ⟨t, List.mem_filter.mpr ⟨ht, decide_eq_true htN⟩, rfl⟩

theorem taskIdx_earliest (names : List String) (i : Nat)
    (hi : pyMin (taskIndices names) = some i) :
    ∃ h : i < names.length,
      names.get ⟨i, h⟩ ∈ TRF_TASKS ∧
      ∀ j (hj : j < names.length), j < i → names.get ⟨j, hj⟩ ∉ TRF_TASKS := by
  have hlen := taskIdx_lt names i hi
  rcases taskIndices_some names i hi with ⟨t, htT, htN, hidx⟩
  refine ⟨hlen, ?_, ?_⟩
  · have hg : names.get ⟨i, hlen⟩ = t := by
      subst hidx
      exact get_pyIndex names t htN _
    rw [hg]
    exact htT
  · intro j hj hji htask
    have hle : i ≤ pyIndex names (names.get ⟨j, hj⟩) :=
      taskIdx_le_task names i hi _ htask (List.get_mem names j hj)
    have hle2 : pyIndex names (names.get ⟨j, hj⟩) ≤ j := pyIndex_le_of_get names j hj
    omega

theorem rebuild_sub (pl sub : Pipeline) (hnd : (pl.map Prod.fst).Nodup)
    (hsub : ∀ e ∈ sub, e ∈ pl) :
    (sub.map Prod.fst).map (fun k => (k, (getKey pl k).getD [])) = sub := by
  rw [List.map_map]
  have h : ∀ e ∈ sub, ((fun k => (k, (getKey pl k).getD [])) ∘ Prod.fst) e = id e := by
    intro e he
    have hg := getKey_of_mem_nodup pl hnd (hsub e he)
    simp [Function.comp, hg]
  rw [List.map_congr_left h, List.map_id]

theorem complement_pipeline_no_task (cfg : NLPConfig)
    (hnone : pyMin (taskIndices (cfg.pipeline.map Prod.fst)) = none) :
    _complement_trf_pipeline cfg = cfg := by
  unfold _complement_trf_pipeline
  simp only [hnone]

theorem complement_pipeline_eq (cfg : NLPConfig)
    (hnd : (cfg.pipeline.map Prod.fst).Nodup) (i : Nat)
    (hi : pyMin (taskIndices (cfg.pipeline.map Prod.fst)) = some i) :
    (_complement_trf_pipeline cfg).pipeline =
      cfg.pipeline.take i ++
        (missingBases (cfg.pipeline.map Prod.fst)).map (fun k => (k, ([] : Settings))) ++
        cfg.pipeline.drop i := by
  have hlen : i < (cfg.pipeline.map Prod.fst).length := taskIdx_lt _ i hi
  have htake : (cfg.pipeline.map Prod.fst).take i = (cfg.pipeline.take i).map Prod.fst :=
    (List.map_take _ _ _).symm
  have hdrop : (cfg.pipeline.map Prod.fst).drop i = (cfg.pipeline.drop i).map Prod.fst :=
    (List.map_drop _ _ _).symm
  have hrebuild_take :
      ((cfg.pipeline.map Prod.fst).take i).map
        (fun k => (k, (getKey cfg.pipeline k).getD [])) = cfg.pipeline.take i := by
    rw [htake]
    exact rebuild_sub cfg.pipeline (cfg.pipeline.take i) hnd
      (fun e he => List.take_subset i cfg.pipeline he)
  have hrebuild_drop :
      ((cfg.pipeline.map Prod.fst).drop i).map
        (fun k => (k, (getKey cfg.pipeline k).getD [])) = cfg.pipeline.drop i := by
    rw [hdrop]
    exact rebuild_sub cfg.pipeline (cfg.pipeline.drop i) hnd
      (fun e he => List.drop_subset i cfg.pipeline he)
  unfold _complement_trf_pipeline
  simp only [hi]
  have hrev : TRF_BASES.reverse = [TRANSFORMERS_MODEL, TRANSFORMERS_TOKENIZER] := rfl
  rw [hrev]
  simp only [List.foldl_cons, List.foldl_nil]
  by_cases hM : TRANSFORMERS_MODEL ∈ cfg.pipeline.map Prod.fst
  · by_cases hT : TRANSFORMERS_TOKENIZER ∈ cfg.pipeline.map Prod.fst
    · rw [if_pos hM, if_pos hT]
      have hmb : missingBases (cfg.pipeline.map Prod.fst) = [] := by
        simp [missingBases, TRF_BASES, hT, hM]
      rw [hmb]
      simp only [List.map_nil, List.append_nil, List.nil_append]
      rw [List.take_append_drop]
      exact rebuild_sub cfg.pipeline cfg.pipeline hnd (fun e he => he)
    · rw [if_pos hM, if_neg hT]
      have hmb : missingBases (cfg.pipeline.map Prod.fst) = [TRANSFORMERS_TOKENIZER] := by
        simp [missingBases, TRF_BASES, hT, hM]
      rw [hmb]
      unfold listInsert
      rw [List.map_append, List.map_cons, hrebuild_take, hrebuild_drop]
      have hg : getKey cfg.pipeline TRANSFORMERS_TOKENIZER = none :=
        (getKey_eq_none_iff _ _).mpr hT
      rw [hg]
      simp
  · by_cases hT : TRANSFORMERS_TOKENIZER ∈ cfg.pipeline.map Prod.fst
    · rw [if_neg hM]
      have hTin : TRANSFORMERS_TOKENIZER ∈
          listInsert (cfg.pipeline.map Prod.fst) i TRANSFORMERS_MODEL :=
        (mem_listInsert _ _ _ _).mpr (Or.inr hT)
      rw [if_pos hTin]
      have hmb : missingBases (cfg.pipeline.map Prod.fst) = [TRANSFORMERS_MODEL] := by
        simp [missingBases, TRF_BASES, hT, hM]
      rw [hmb]
      unfold listInsert
      rw [List.map_append, List.map_cons, hrebuild_take, hrebuild_drop]
      have hg : getKey cfg.pipeline TRANSFORMERS_MODEL = none :=
        (getKey_eq_none_iff _ _).mpr hM
      rw [hg]
      simp
    · rw [if_neg hM]
      have hTnot : ¬ TRANSFORMERS_TOKENIZER ∈
          listInsert (cfg.pipeline.map Prod.fst) i TRANSFORMERS_MODEL := by
        rw [mem_listInsert]
        push_neg
        exact ⟨by decide, hT⟩
      rw [if_neg hTnot]
      have hmb : missingBases (cfg.pipeline.map Prod.fst) =
          [TRANSFORMERS_TOKENIZER, TRANSFORMERS_MODEL] := by
        simp [missingBases, TRF_BASES, hT, hM]
      rw [hmb]
      rw [listInsert_listInsert (cfg.pipeline.map Prod.fst) i
        TRANSFORMERS_MODEL TRANSFORMERS_TOKENIZER (Nat.le_of_lt hlen)]
      rw [List.map_append, List.map_cons, List.map_cons, hrebuild_take, hrebuild_drop]
      have hgT : getKey cfg.pipeline TRANSFORMERS_TOKENIZER = none :=
        (getKey_eq_none_iff _ _).mpr hT
      have hgM : getKey cfg.pipeline TRANSFORMERS_MODEL = none :=
        (getKey_eq_none_iff _ _).mpr hM
      rw [hgT, hgM]
      simp

theorem insert_nodup (names : List String) (i : Nat) (hnd : names.Nodup) :
    (names.take i ++ missingBases names ++ names.drop i).Nodup := by
  have h1 : (names.take i ++ (missingBases names ++ names.drop i)).Perm
      ((missingBases names ++ names.drop i) ++ names.take i) := List.perm_append_comm
  have h2 : ((missingBases names ++ names.drop i) ++ names.take i) =
      missingBases names ++ (names.drop i ++ names.take i) :=
    List.append_assoc _ _ _
  have h3 : (names.drop i ++ names.take i).Perm (names.take i ++ names.drop i) :=
    List.perm_append_comm
  have h4 : (missingBases names ++ (names.drop i ++ names.take i)).Perm
      (missingBases names ++ names) := by
    have h5 := h3.append_left (missingBases names)
    rw [List.take_append_drop] at h5
    exact h5
  have hall : (names.take i ++ (missingBases names ++ names.drop i)).Perm
      (missingBases names ++ names) := by
    refine h1.trans ?_
    rw [h2]
    exact h4
  have hmn : (missingBases names ++ names).Nodup := by
    refine List.Nodup.append ?_ hnd ?_
    · exact List.Nodup.filter _ (by decide)
    · intro x hxm hxn
      have hx2 := List.mem_filter.mp hxm
      exact absurd hxn (of_decide_eq_true hx2.2)
  rw [List.append_assoc]
  exact hall.symm.nodup hmn

theorem nlpconfig_eq {c d : NLPConfig} (h1 : c.lang = d.lang)
    (h2 : c.pipeline = d.pipeline) : c = d := by
  obtain ⟨cl, cp⟩ := c
  obtain ⟨dl, dp⟩ := d
  simp only [NLPConfig.mk.injEq]
  exact ⟨h1, h2⟩

theorem complement_pipeline_lang (cfg : NLPConfig) :
    (_complement_trf_pipeline cfg).lang = cfg.lang := by
  unfold _complement_trf_pipeline
  cases hpm : pyMin (taskIndices (cfg.pipeline.map Prod.fst)) with
  | none => simp only [hpm]
  | some i => simp only [hpm]

/-! ## Scan lemmas for identifier propagation -/

theorem scanStep_no_decl (acc : Val) (e : String × Settings)
    (h : e.1 ∈ TRF_PIPES → declaresTrfName e.2 = false) :
    scanStep acc e = acc := by
  unfold scanStep
  by_cases hm : e.1 ∈ TRF_PIPES
  · have hd := h hm
    unfold declaresTrfName at hd
    cases hget : getKey e.2 trfKey with
    | none => simp [hm, hget]
    | some w =>
      rw [hget] at hd
      simp at hd
      simp [hm, hget, hd]
  · simp [hm]

theorem foldl_scan_no_decl (p : Pipeline) (acc : Val)
    (h : ∀ e ∈ p, e.1 ∈ TRF_PIPES → declaresTrfName e.2 = false) :
    p.foldl scanStep acc = acc := by
  induction p generalizing acc with
  | nil => rfl
  | cons e rest ih =>
    rw [List.foldl_cons, scanStep_no_decl acc e (h e (List.mem_cons_self e rest))]
    exact ih acc (fun e2 he2 => h e2 (List.mem_cons_of_mem e he2))

/-! ## Label-resolution lemmas -/

theorem getKey_some_mem {α : Type} (s : List (String × α)) (k : String) {v : α}
    (h : getKey s k = some v) : k ∈ s.map Prod.fst := by
  by_contra hc
  rw [(getKey_eq_none_iff s k).mpr hc] at h
  exact Option.noConfusion h

theorem updateStage_getKey_self (pl : Pipeline) (stage : String)
    (f : List String → List String) :
    getKey (updateStageLabels pl stage f) stage =
      (getKey pl stage).map (stageLabelT f) := by
  unfold updateStageLabels
  cases hs : getKey pl stage with
  | none => simp [hs]
  | some s =>
    by_cases he : s.isEmpty = true
    · simp [he, hs, stageLabelT]
    · cases hl : getKey s LABELS with
      | none => simp [he, hl, hs, stageLabelT]
      | some w =>
        cases w with
        | vstr t => simp [he, hl, hs, stageLabelT]
        | vlist l => simp [he, hl, stageLabelT, getKey_setKey_self]

theorem updateStage_getKey_other (pl : Pipeline) (stage k : String)
    (f : List String → List String) (hne : k ≠ stage) :
    getKey (updateStageLabels pl stage f) k = getKey pl k := by
  unfold updateStageLabels
  cases hs : getKey pl stage with
  | none => rfl
  | some s =>
    by_cases he : s.isEmpty = true
    · simp [he]
    · cases hl : getKey s LABELS with
      | none => simp [he, hl]
      | some w =>
        cases w with
        | vstr t => simp [he, hl]
        | vlist l => simp [he, hl, getKey_setKey_ne _ _ _ _ hne]

theorem updateStage_map_fst (pl : Pipeline) (stage : String)
    (f : List String → List String) :
    (updateStageLabels pl stage f).map Prod.fst = pl.map Prod.fst := by
  unfold updateStageLabels
  cases hs : getKey pl stage with
  | none => rfl
  | some s =>
    by_cases he : s.isEmpty = true
    · simp [he]
    · cases hl : getKey s LABELS with
      | none => simp [he, hl]
      | some w =>
        cases w with
        | vstr t => simp [he, hl]
        | vlist l =>
          simp only [he, hl, if_false, Bool.false_eq_true]
          exact setKey_map_fst_of_mem _ _ _ (getKey_some_mem pl stage hs)

theorem resolve_label_getKey_other (cfg : NLPConfig) (k : String)
    (h1 : k ≠ TRANSFORMERS_NER) (h2 : k ≠ TRANSFORMERS_SEQ_CLASSIFIER) :
    getKey (_resolve_label cfg).pipeline k = getKey cfg.pipeline k := by
  show getKey (updateStageLabels (updateStageLabels cfg.pipeline TRANSFORMERS_NER
    get_biluo_labels) TRANSFORMERS_SEQ_CLASSIFIER get_labels) k = getKey cfg.pipeline k
  rw [updateStage_getKey_other _ _ _ _ h2, updateStage_getKey_other _ _ _ _ h1]

theorem resolve_label_map_fst (cfg : NLPConfig) :
    (_resolve_label cfg).pipeline.map Prod.fst = cfg.pipeline.map Prod.fst := by
  show (updateStageLabels (updateStageLabels cfg.pipeline TRANSFORMERS_NER
    get_biluo_labels) TRANSFORMERS_SEQ_CLASSIFIER get_labels).map Prod.fst =
    cfg.pipeline.map Prod.fst
  rw [updateStage_map_fst, updateStage_map_fst]

/-! ## Frame lemmas for the full chain -/

theorem map_fst_pairs (ms : List String) :
    ((ms.map (fun k => (k, ([] : Settings)))).map Prod.fst) = ms := by
  rw [List.map_map]
  exact (List.map_congr_left (fun a _ => rfl)).trans (List.map_id _)

theorem getKey_middle_skip {α : Type} (a m b : List (String × α)) (k : String)
    (hm : getKey m k = none) :
    getKey (a ++ m ++ b) k = getKey (a ++ b) k := by
  rw [List.append_assoc]
  cases hga : getKey a k with
  | some v =>
    rw [getKey_append_some _ _ _ hga, getKey_append_some _ _ _ hga]
  | none =>
    rw [getKey_append_none _ _ _ hga, getKey_append_none _ _ _ hga,
      getKey_append_none _ _ _ hm]

theorem complement_getKey_frame (cfg : NLPConfig)
    (hnd : (cfg.pipeline.map Prod.fst).Nodup) (k : String) (hk : ¬ k ∈ TRF_PIPES) :
    getKey (_complement_trf_pipeline cfg).pipeline k = getKey cfg.pipeline k := by
  cases hpm : pyMin (taskIndices (cfg.pipeline.map Prod.fst)) with
  | none => rw [complement_pipeline_no_task cfg hpm]
  | some i =>
    rw [complement_pipeline_eq cfg hnd i hpm]
    have hmnone : getKey ((missingBases (cfg.pipeline.map Prod.fst)).map
        (fun k2 => (k2, ([] : Settings)))) k = none := by
      rw [getKey_eq_none_iff, map_fst_pairs]
      intro hkm
      have hkb : k ∈ TRF_BASES := (List.mem_filter.mp hkm).1
      exact hk (List.mem_append_left _ hkb)
    rw [getKey_middle_skip _ _ _ _ hmnone, List.take_append_drop]

theorem complement_filter_frame (cfg : NLPConfig)
    (hnd : (cfg.pipeline.map Prod.fst).Nodup) :
    ((_complement_trf_pipeline cfg).pipeline.map Prod.fst).filter
      (fun k => k ∈ cfg.pipeline.map Prod.fst) = cfg.pipeline.map Prod.fst := by
  cases hpm : pyMin (taskIndices (cfg.pipeline.map Prod.fst)) with
  | none =>
    rw [complement_pipeline_no_task cfg hpm]
    rw [List.filter_eq_self]
    intro a ha
    exact decide_eq_true ha
  | some i =>
    rw [complement_pipeline_eq cfg hnd i hpm]
    rw [List.map_append, List.map_append, map_fst_pairs, List.map_take, List.map_drop]
    rw [List.filter_append, List.filter_append]
    have hft : ((cfg.pipeline.map Prod.fst).take i).filter
        (fun k => k ∈ cfg.pipeline.map Prod.fst) =
        (cfg.pipeline.map Prod.fst).take i := by
      rw [List.filter_eq_self]
      intro a ha
      exact decide_eq_true (List.take_subset _ _ ha)
    have hfd : ((cfg.pipeline.map Prod.fst).drop i).filter
        (fun k => k ∈ cfg.pipeline.map Prod.fst) =
        (cfg.pipeline.map Prod.fst).drop i := by
      rw [List.filter_eq_self]
      intro a ha
      exact decide_eq_true (List.drop_subset _ _ ha)
    have hfm : (missingBases (cfg.pipeline.map Prod.fst)).filter
        (fun k => k ∈ cfg.pipeline.map Prod.fst) = [] := by
      rw [List.filter_eq_nil_iff]
      intro a ha
      have ha2 := of_decide_eq_true (List.mem_filter.mp ha).2
      simpa using ha2
    rw [hft, hfd, hfm, List.append_nil, List.take_append_drop]

theorem getKey_trfMap (pl : Pipeline) (val : Val) (k : String) (hk : ¬ k ∈ TRF_PIPES) :
    getKey (pl.map (fun e =>
      if e.1 ∈ TRF_PIPES then (e.1, setKey e.2 trfKey val) else e)) k = getKey pl k := by
  induction pl with
  | nil => rfl
  | cons e rest ih =>
    rw [List.map_cons]
    by_cases hm : e.1 ∈ TRF_PIPES
    · rw [if_pos hm]
      have hne : ¬ e.1 = k := fun h => hk (h ▸ hm)
      simp [getKey, hne, ih]
    · rw [if_neg hm]
      by_cases hek : e.1 = k
      · simp [getKey, hek]
      · simp [getKey, hek, ih]

theorem trfMap_map_fst (pl : Pipeline) (val : Val) :
    (pl.map (fun e =>
      if e.1 ∈ TRF_PIPES then (e.1, setKey e.2 trfKey val) else e)).map Prod.fst =
      pl.map Prod.fst := by
  rw [List.map_map]
  apply List.map_congr_left
  intro e _
  by_cases hm : e.1 ∈ TRF_PIPES <;> simp [hm]

theorem complement_trf_name_ok_cases (cfg cfg2 : NLPConfig)
    (h : _complement_trf_name cfg = Except.ok cfg2) :
    cfg2 = cfg ∨
    cfg2 = { cfg with pipeline := cfg.pipeline.map (fun e =>
      if e.1 ∈ TRF_PIPES then (e.1, setKey e.2 trfKey (scanTrfName cfg.pipeline))
      else e) } := by
  unfold _complement_trf_name at h
  by_cases h1 : hasTrfPipe cfg.pipeline = true
  · by_cases h2 : (scanTrfName cfg.pipeline).truthy = true
    · right
      simp only [h1, if_true, h2, Except.ok.injEq] at h
      exact h.symm
    · simp [h1, h2] at h
  · left
    simp only [h1, Bool.false_eq_true, if_false] at h
    exact (Except.ok.inj h).symm

theorem correct_torch_pipeline (cfg : NLPConfig) :
    (_correct_torch cfg).pipeline = cfg.pipeline := by
  unfold _correct_torch
  by_cases h : hasTrfPipe cfg.pipeline = true <;> simp [h]

theorem correct_nlp_config_eq (cfg : NLPConfig) :
    correct_nlp_config cfg =
      match _complement_trf_name (_complement_trf_pipeline cfg) with
      | Except.error e => Except.error e
      | Except.ok c => Except.ok (_resolve_label (_correct_torch c)) := by
  unfold correct_nlp_config _correct_trf_pipeline
  cases hmid : _complement_trf_name (_complement_trf_pipeline cfg) with
  | error e => rfl
  | ok c => rfl

/-! ## Claim theorems -/

/-- C4: end-to-end resolution of
`pipeline: {sequence-classifier: {trf_name_or_path: "m1", labels: [pos, neg]}}`
with `lang: {name: en, torch: false}` yields stage order
tokenizer, base-model, sequence-classifier, all three carrying
`trf_name_or_path = "m1"`, `lang.torch = true`, and the classifier labels
resolved to `["pos", "neg"]`. -/
theorem correct_nlp_config_end_to_end :
    correct_nlp_config exampleSeqClfConfig =
      Except.ok
        { lang := { name := "en", torch := true },
          pipeline :=
            [(TRANSFORMERS_TOKENIZER, [(trfKey, Val.vstr "m1")]),
             (TRANSFORMERS_MODEL, [(trfKey, Val.vstr "m1")]),
             (TRANSFORMERS_SEQ_CLASSIFIER,
               [(trfKey, Val.vstr "m1"), (LABELS, Val.vlist ["pos", "neg"])])] } := by
  rfl

/-- C5: the backend-mode pass forces `lang.torch = true` (leaving everything
else intact) whenever the pipeline holds a transformers pipe, regardless of
the flag's prior value, and returns the config unchanged otherwise. -/
theorem correct_torch_spec (cfg : NLPConfig) :
    (hasTrfPipe cfg.pipeline = true →
      _correct_torch cfg = { cfg with lang := { cfg.lang with torch := true } }) ∧
    (hasTrfPipe cfg.pipeline = false → _correct_torch cfg = cfg) := by
  constructor <;> intro h <;> simp [_correct_torch, h]

/-- Witness for C5 at a concrete config whose torch flag starts out false. -/
theorem correct_torch_spec_witness :
    _correct_torch exampleTorchOffConfig =
      { exampleTorchOffConfig with
        lang := { exampleTorchOffConfig.lang with torch := true } } :=
  (correct_torch_spec exampleTorchOffConfig).1 (by decide)

/-- C8: in torch mode `create_lang` merges `{"lang": cfg.name}` into the
kwargs' `meta` mapping — every pre-existing `meta` entry with a key other
than `"lang"` keeps its value — and constructs the torch host with the fresh
vocab, the configured optimizer, and exactly those merged kwargs. -/
theorem create_lang_torch_merges_meta (cfg : LangFullConfig) (h : cfg.torch = true) :
    ∃ meta : StrDict,
      create_lang cfg =
        LangHost.torchLang true cfg.optimizer
          { cfg.kwargs.getD emptyKwargs with meta := some meta } ∧
      getKey meta "lang" = some cfg.name ∧
      (∀ k, k ≠ "lang" →
        getKey meta k = getKey ((cfg.kwargs.getD emptyKwargs).meta.getD []) k) := by
  refine ⟨setKey ((cfg.kwargs.getD emptyKwargs).meta.getD []) "lang" cfg.name,
    ?_, getKey_setKey_self _ _ _, fun k hk => getKey_setKey_ne _ _ _ _ hk⟩
  simp [create_lang, h, dictMerge, emptyKwargs]

/-- Witness for C8 at a concrete torch-mode `lang` section with a non-empty
pre-existing `meta` mapping. -/
theorem create_lang_torch_merges_meta_witness :
    ∃ meta : StrDict,
      create_lang exampleLangSection =
        LangHost.torchLang true exampleLangSection.optimizer
          { exampleLangSection.kwargs.getD emptyKwargs with meta := some meta } ∧
      getKey meta "lang" = some exampleLangSection.name ∧
      (∀ k, k ≠ "lang" →
        getKey meta k =
          getKey ((exampleLangSection.kwargs.getD emptyKwargs).meta.getD []) k) :=
  create_lang_torch_merges_meta exampleLangSection rfl

/-- C3: when the pipeline has a transformers pipe but no such pipe declares a
truthy `trf_name_or_path`, identifier propagation fails with the single
missing-identifier error carrying a rendering of the current pipeline; when
the pipeline has no transformers pipe at all, it returns the config unchanged
and raises nothing. -/
theorem complement_trf_name_error_or_noop (cfg : NLPConfig) :
    (hasTrfPipe cfg.pipeline = true →
      (∀ e ∈ cfg.pipeline, e.1 ∈ TRF_PIPES → declaresTrfName e.2 = false) →
      _complement_trf_name cfg =
        Except.error (ResolveError.missingTrfName (prettyPipeline cfg.pipeline))) ∧
    (hasTrfPipe cfg.pipeline = false → _complement_trf_name cfg = Except.ok cfg) := by
  constructor
  · intro h hall
    have hscan : scanTrfName cfg.pipeline = Val.vstr "" :=
      foldl_scan_no_decl cfg.pipeline (Val.vstr "") hall
    simp [_complement_trf_name, h, hscan, Val.truthy]
  · intro h
    simp [_complement_trf_name, h]

/-- Witness for C3 at a concrete pipeline with a transformers pipe and no
declared identifier. -/
theorem complement_trf_name_error_or_noop_witness :
    _complement_trf_name exampleNoNameConfig =
      Except.error
        (ResolveError.missingTrfName (prettyPipeline exampleNoNameConfig.pipeline)) :=
  (complement_trf_name_error_or_noop exampleNoNameConfig).1 (by decide) (by decide)

/-- C10: a transformers stage whose settings lack the `trf_name_or_path` key
entirely is read as an empty (falsy) value by the propagation scan — the scan
result equals the one for the same pipeline with that stage declaring the
empty string — and the pass is total: it either succeeds or fails with the
one aggregate missing-identifier error, never a key-lookup error. -/
theorem complement_trf_name_missing_key_safe (cfg : NLPConfig) (pre post : Pipeline)
    (k : String) (v : Settings)
    (hsplit : cfg.pipeline = pre ++ (k, v) :: post)
    (hk : k ∈ TRF_PIPES) (hmiss : getKey v trfKey = none) :
    scanTrfName cfg.pipeline =
      scanTrfName (pre ++ (k, setKey v trfKey (Val.vstr "")) :: post) ∧
    ((∃ cfg2, _complement_trf_name cfg = Except.ok cfg2) ∨
      _complement_trf_name cfg =
        Except.error (ResolveError.missingTrfName (prettyPipeline cfg.pipeline))) := by
  constructor
  · unfold scanTrfName
    rw [hsplit, List.foldl_append, List.foldl_append, List.foldl_cons, List.foldl_cons]
    have h1 : scanStep (List.foldl scanStep (Val.vstr "") pre) (k, v) =
        List.foldl scanStep (Val.vstr "") pre := by
      unfold scanStep
      simp [hk, hmiss]
    have h2 : scanStep (List.foldl scanStep (Val.vstr "") pre)
        (k, setKey v trfKey (Val.vstr "")) =
        List.foldl scanStep (Val.vstr "") pre := by
      unfold scanStep
      simp [hk, getKey_setKey_self, Val.truthy]
    rw [h1, h2]
  · unfold _complement_trf_name
    by_cases h : hasTrfPipe cfg.pipeline = true
    · by_cases ht : (scanTrfName cfg.pipeline).truthy = true
      · exact Or.inl ⟨{ cfg with pipeline := cfg.pipeline.map (fun e =>
          if e.1 ∈ TRF_PIPES then (e.1, setKey e.2 trfKey (scanTrfName cfg.pipeline))
          else e) }, by simp [h, ht]⟩
      · exact Or.inr (by simp [h, ht])
    · exact Or.inl ⟨cfg, by simp [h]⟩

/-- Witness for C10 at a concrete pipeline whose base-model stage has empty
settings (no identifier key). -/
theorem complement_trf_name_missing_key_safe_witness :
    scanTrfName exampleKeylessConfig.pipeline =
      scanTrfName ([] ++ (TRANSFORMERS_MODEL, setKey [] trfKey (Val.vstr "")) ::
        [(TRANSFORMERS_NER, [(trfKey, Val.vstr "m2")])]) ∧
    ((∃ cfg2, _complement_trf_name exampleKeylessConfig = Except.ok cfg2) ∨
      _complement_trf_name exampleKeylessConfig =
        Except.error
          (ResolveError.missingTrfName (prettyPipeline exampleKeylessConfig.pipeline))) :=
  complement_trf_name_missing_key_safe exampleKeylessConfig []
    [(TRANSFORMERS_NER, [(trfKey, Val.vstr "m2")])]
    TRANSFORMERS_MODEL [] rfl (by decide) rfl

/-- C2: when the last transformers stage (in pipeline order) declaring a
truthy `trf_name_or_path` declares `val` — and some earlier transformers
stage declares a different truthy value — propagation succeeds, writes `val`
onto the settings of every transformers stage (overwriting any prior value)
and leaves other stages alone, so afterwards every transformers stage reads
back exactly `val`. -/
theorem complement_trf_name_last_wins (cfg : NLPConfig) (pre post : Pipeline)
    (k : String) (v : Settings) (val : Val)
    (hsplit : cfg.pipeline = pre ++ (k, v) :: post)
    (hk : k ∈ TRF_PIPES) (hval : getKey v trfKey = some val) (ht : val.truthy = true)
    (hpost : ∀ e ∈ post, e.1 ∈ TRF_PIPES → declaresTrfName e.2 = false)
    (_hpre : ∃ e ∈ pre, e.1 ∈ TRF_PIPES ∧
      ∃ w, getKey e.2 trfKey = some w ∧ w.truthy = true ∧ w ≠ val) :
    _complement_trf_name cfg =
      Except.ok { cfg with pipeline := cfg.pipeline.map (fun e =>
        if e.1 ∈ TRF_PIPES then (e.1, setKey e.2 trfKey val) else e) } ∧
    ∀ e ∈ cfg.pipeline.map (fun e =>
        if e.1 ∈ TRF_PIPES then (e.1, setKey e.2 trfKey val) else e),
      e.1 ∈ TRF_PIPES → getKey e.2 trfKey = some val := by
  have hscan : scanTrfName cfg.pipeline = val := by
    unfold scanTrfName
    rw [hsplit, List.foldl_append, List.foldl_cons]
    have hstep : scanStep (List.foldl scanStep (Val.vstr "") pre) (k, v) = val := by
      unfold scanStep
      simp [hk, hval, ht]
    rw [hstep]
    exact foldl_scan_no_decl post val hpost
  have hhas : hasTrfPipe cfg.pipeline = true := by
    unfold hasTrfPipe
    rw [hsplit]
    refine List.any_eq_true.mpr ⟨(k, v), ?_, ?_⟩
    · exact List.mem_append_right _ (List.mem_cons_self _ _)
    · simpa using hk
  constructor
  · unfold _complement_trf_name
    simp [hhas, hscan, ht]
  · intro e he hetrf
    rcases List.mem_map.mp he with ⟨e0, he0, hfe⟩
    by_cases h0 : e0.1 ∈ TRF_PIPES
    · rw [if_pos h0] at hfe
      rw [← hfe]
      exact getKey_setKey_self _ _ _
    · rw [if_neg h0] at hfe
      rw [← hfe] at hetrf
      exact absurd hetrf h0

/-- Witness for C2 at a concrete pipeline with two distinct declared
identifiers: the later one ("b") wins and is written everywhere. -/
theorem complement_trf_name_last_wins_witness :
    _complement_trf_name exampleTwoNamesConfig =
      Except.ok { exampleTwoNamesConfig with
        pipeline := exampleTwoNamesConfig.pipeline.map (fun e =>
          if e.1 ∈ TRF_PIPES then (e.1, setKey e.2 trfKey (Val.vstr "b")) else e) } ∧
    ∀ e ∈ exampleTwoNamesConfig.pipeline.map (fun e =>
        if e.1 ∈ TRF_PIPES then (e.1, setKey e.2 trfKey (Val.vstr "b")) else e),
      e.1 ∈ TRF_PIPES → getKey e.2 trfKey = some (Val.vstr "b") :=
  complement_trf_name_last_wins exampleTwoNamesConfig
    [(TRANSFORMERS_TOKENIZER, [(trfKey, Val.vstr "a")])]
    [("sentencizer", [])]
    TRANSFORMERS_MODEL [(trfKey, Val.vstr "b")] (Val.vstr "b")
    rfl (by decide) rfl rfl (by decide) (by decide)

/-- C1: when a task pipe is present and at least one base pipe is missing,
completion rebuilds the pipeline as: the stages before position `i`, then
exactly the missing base stages (tokenizer before base model) with empty
settings, then the remaining stages — where `i` is the position of the
earliest task stage; no existing stage is duplicated (the result's keys are
Nodup) and every pre-existing stage keeps its settings and relative order. -/
theorem complement_pipeline_inserts_missing (cfg : NLPConfig)
    (hnd : (cfg.pipeline.map Prod.fst).Nodup) (i : Nat)
    (hi : pyMin (taskIndices (cfg.pipeline.map Prod.fst)) = some i)
    (_hmiss : missingBases (cfg.pipeline.map Prod.fst) ≠ []) :
    (_complement_trf_pipeline cfg).pipeline =
      cfg.pipeline.take i ++
        (missingBases (cfg.pipeline.map Prod.fst)).map (fun k => (k, ([] : Settings))) ++
        cfg.pipeline.drop i ∧
    (∃ h : i < (cfg.pipeline.map Prod.fst).length,
      (cfg.pipeline.map Prod.fst).get ⟨i, h⟩ ∈ TRF_TASKS ∧
      ∀ j (hj : j < (cfg.pipeline.map Prod.fst).length), j < i →
        (cfg.pipeline.map Prod.fst).get ⟨j, hj⟩ ∉ TRF_TASKS) ∧
    ((_complement_trf_pipeline cfg).pipeline.map Prod.fst).Nodup := by
  have heq := complement_pipeline_eq cfg hnd i hi
  refine ⟨heq, taskIdx_earliest _ i hi, ?_⟩
  rw [heq]
  have hmapfst : (cfg.pipeline.take i ++
      (missingBases (cfg.pipeline.map Prod.fst)).map (fun k => (k, ([] : Settings))) ++
      cfg.pipeline.drop i).map Prod.fst =
      (cfg.pipeline.map Prod.fst).take i ++ missingBases (cfg.pipeline.map Prod.fst) ++
        (cfg.pipeline.map Prod.fst).drop i := by
    have hmid : List.map Prod.fst ((missingBases (cfg.pipeline.map Prod.fst)).map
        (fun k => (k, ([] : Settings)))) = missingBases (cfg.pipeline.map Prod.fst) := by
      rw [List.map_map]
      exact (List.map_congr_left (fun a _ => rfl)).trans (List.map_id _)
    rw [List.map_append, List.map_append, hmid, List.map_take, List.map_drop]
  rw [hmapfst]
  exact insert_nodup _ i hnd

/-- Witness for C1 at the concrete single-stage classifier pipeline: both
base stages are missing and get inserted before it. -/
theorem complement_pipeline_inserts_missing_witness :
    (_complement_trf_pipeline exampleSeqClfConfig).pipeline =
      exampleSeqClfConfig.pipeline.take 0 ++
        (missingBases (exampleSeqClfConfig.pipeline.map Prod.fst)).map
          (fun k => (k, ([] : Settings))) ++
        exampleSeqClfConfig.pipeline.drop 0 ∧
    (∃ h : 0 < (exampleSeqClfConfig.pipeline.map Prod.fst).length,
      (exampleSeqClfConfig.pipeline.map Prod.fst).get ⟨0, h⟩ ∈ TRF_TASKS ∧
      ∀ j (hj : j < (exampleSeqClfConfig.pipeline.map Prod.fst).length), j < 0 →
        (exampleSeqClfConfig.pipeline.map Prod.fst).get ⟨j, hj⟩ ∉ TRF_TASKS) ∧
    ((_complement_trf_pipeline exampleSeqClfConfig).pipeline.map Prod.fst).Nodup :=
  complement_pipeline_inserts_missing exampleSeqClfConfig (by decide) 0
    (by decide) (by decide)

/-- C6: completion is the identity both when a task stage is present with
both base stages already in the pipeline (same keys, same order, same
settings), and when no task stage is present at all. -/
theorem complement_pipeline_noop (cfg : NLPConfig)
    (hnd : (cfg.pipeline.map Prod.fst).Nodup) :
    (((∃ t ∈ TRF_TASKS, t ∈ cfg.pipeline.map Prod.fst) ∧
        TRANSFORMERS_TOKENIZER ∈ cfg.pipeline.map Prod.fst ∧
        TRANSFORMERS_MODEL ∈ cfg.pipeline.map Prod.fst) →
      _complement_trf_pipeline cfg = cfg) ∧
    ((∀ t ∈ TRF_TASKS, ¬ t ∈ cfg.pipeline.map Prod.fst) →
      _complement_trf_pipeline cfg = cfg) := by
  constructor
  · rintro ⟨⟨t, htT, htN⟩, hT, hM⟩
    cases hpm : pyMin (taskIndices (cfg.pipeline.map Prod.fst)) with
    | none =>
      exfalso
      rw [pyMin_eq_none_iff] at hpm
      have hmm : pyIndex (cfg.pipeline.map Prod.fst) t ∈
          taskIndices (cfg.pipeline.map Prod.fst) :=
        List.mem_map.mpr ⟨t, List.mem_filter.mpr ⟨htT, decide_eq_true htN⟩, rfl⟩
      rw [hpm] at hmm
      exact absurd hmm (List.not_mem_nil _)
    | some i =>
      have heq := complement_pipeline_eq cfg hnd i hpm
      have hmb : missingBases (cfg.pipeline.map Prod.fst) = [] := by
        simp [missingBases, TRF_BASES, hT, hM]
      rw [hmb] at heq
      simp only [List.map_nil, List.nil_append, List.append_nil] at heq
      rw [List.take_append_drop] at heq
      exact nlpconfig_eq (complement_pipeline_lang cfg) heq
  · intro hnone
    apply complement_pipeline_no_task
    rw [pyMin_eq_none_iff]
    unfold taskIndices
    have hf : TRF_TASKS.filter (fun k => k ∈ cfg.pipeline.map Prod.fst) = [] := by
      rw [List.filter_eq_nil_iff]
      intro a ha
      simpa using hnone a ha
    rw [hf]
    rfl

/-- Witness for C6 at a concrete pipeline with a task stage and both base
stages already present. -/
theorem complement_pipeline_noop_witness :
    _complement_trf_pipeline exampleFullConfig = exampleFullConfig :=
  (complement_pipeline_noop exampleFullConfig (by decide)).1 (by decide)

/-- C7: label resolution transforms the NER stage's labels through the BILUO
expansion and the sequence-classifier stage's labels through flat label
resolution — each exactly when that stage is present with truthy (non-empty)
settings holding a label list; an absent stage stays absent, an
empty-settings stage is untouched (`stageLabelT` is the identity there), the
two transformations are independent (each output stage is a function of that
stage's own input settings alone), and stage order and all other stages are
unchanged. -/
theorem resolve_label_spec (cfg : NLPConfig) :
    getKey (_resolve_label cfg).pipeline TRANSFORMERS_NER =
      (getKey cfg.pipeline TRANSFORMERS_NER).map (stageLabelT get_biluo_labels) ∧
    getKey (_resolve_label cfg).pipeline TRANSFORMERS_SEQ_CLASSIFIER =
      (getKey cfg.pipeline TRANSFORMERS_SEQ_CLASSIFIER).map (stageLabelT get_labels) ∧
    (∀ k, k ≠ TRANSFORMERS_NER → k ≠ TRANSFORMERS_SEQ_CLASSIFIER →
      getKey (_resolve_label cfg).pipeline k = getKey cfg.pipeline k) ∧
    (_resolve_label cfg).pipeline.map Prod.fst = cfg.pipeline.map Prod.fst ∧
    ∀ s : Settings, s.isEmpty = true →
      stageLabelT get_biluo_labels s = s ∧ stageLabelT get_labels s = s := by
  have hne : TRANSFORMERS_NER ≠ TRANSFORMERS_SEQ_CLASSIFIER := by decide
  refine ⟨?_, ?_, fun k h1 h2 => resolve_label_getKey_other cfg k h1 h2,
    resolve_label_map_fst cfg,
    fun s hs => ⟨by simp [stageLabelT, hs], by simp [stageLabelT, hs]⟩⟩
  · show getKey (updateStageLabels (updateStageLabels cfg.pipeline TRANSFORMERS_NER
      get_biluo_labels) TRANSFORMERS_SEQ_CLASSIFIER get_labels) TRANSFORMERS_NER = _
    rw [updateStage_getKey_other _ _ _ _ hne, updateStage_getKey_self]
  · show getKey (updateStageLabels (updateStageLabels cfg.pipeline TRANSFORMERS_NER
      get_biluo_labels) TRANSFORMERS_SEQ_CLASSIFIER get_labels)
      TRANSFORMERS_SEQ_CLASSIFIER = _
    rw [updateStage_getKey_self, updateStage_getKey_other _ _ _ _ hne.symm]

/-- Witness for C7 at a concrete pipeline carrying an NER stage with labels. -/
theorem resolve_label_spec_witness :
    getKey (_resolve_label exampleFullConfig).pipeline TRANSFORMERS_NER =
      (getKey exampleFullConfig.pipeline TRANSFORMERS_NER).map
        (stageLabelT get_biluo_labels) ∧
    getKey (_resolve_label exampleFullConfig).pipeline TRANSFORMERS_SEQ_CLASSIFIER =
      (getKey exampleFullConfig.pipeline TRANSFORMERS_SEQ_CLASSIFIER).map
        (stageLabelT get_labels) ∧
    (∀ k, k ≠ TRANSFORMERS_NER → k ≠ TRANSFORMERS_SEQ_CLASSIFIER →
      getKey (_resolve_label exampleFullConfig).pipeline k =
        getKey exampleFullConfig.pipeline k) ∧
    (_resolve_label exampleFullConfig).pipeline.map Prod.fst =
      exampleFullConfig.pipeline.map Prod.fst ∧
    ∀ s : Settings, s.isEmpty = true →
      stageLabelT get_biluo_labels s = s ∧ stageLabelT get_labels s = s :=
  resolve_label_spec exampleFullConfig

/-- C9: frame effect of the full chain: for every stage name outside the four
transformers pipes, successful resolution leaves that stage's settings lookup
unchanged, and the pre-existing stage names survive in their original
relative order (filtering the result's key list to the original keys yields
exactly the original key list). -/
theorem resolution_frame_effect (cfg cfg2 : NLPConfig)
    (hnd : (cfg.pipeline.map Prod.fst).Nodup)
    (hok : correct_nlp_config cfg = Except.ok cfg2) :
    (∀ k, ¬ k ∈ TRF_PIPES → getKey cfg2.pipeline k = getKey cfg.pipeline k) ∧
    (cfg2.pipeline.map Prod.fst).filter (fun k => k ∈ cfg.pipeline.map Prod.fst) =
      cfg.pipeline.map Prod.fst := by
  rw [correct_nlp_config_eq] at hok
  cases hmid : _complement_trf_name (_complement_trf_pipeline cfg) with
  | error e =>
    rw [hmid] at hok
    exact absurd hok (by simp)
  | ok c =>
    rw [hmid] at hok
    have hc2 : cfg2 = _resolve_label (_correct_torch c) := (Except.ok.inj hok).symm
    have hgk : ∀ k, ¬ k ∈ TRF_PIPES →
        getKey c.pipeline k = getKey (_complement_trf_pipeline cfg).pipeline k := by
      rcases complement_trf_name_ok_cases _ c hmid with hcase | hcase
      · intro k _
        rw [hcase]
      · intro k hk
        rw [hcase]
        exact getKey_trfMap _ _ k hk
    have hfst : c.pipeline.map Prod.fst =
        (_complement_trf_pipeline cfg).pipeline.map Prod.fst := by
      rcases complement_trf_name_ok_cases _ c hmid with hcase | hcase
      · rw [hcase]
      · rw [hcase]
        exact trfMap_map_fst _ _
    constructor
    · intro k hk
      have hkN : ¬ k = TRANSFORMERS_NER := by
        intro h
        subst h
        exact hk (by decide)
      have hkS : ¬ k = TRANSFORMERS_SEQ_CLASSIFIER := by
        intro h
        subst h
        exact hk (by decide)
      rw [hc2, resolve_label_getKey_other _ k hkN hkS, correct_torch_pipeline,
        hgk k hk]
      exact complement_getKey_frame cfg hnd k hk
    · rw [hc2, resolve_label_map_fst, correct_torch_pipeline, hfst]
      exact complement_filter_frame cfg hnd

/-- Witness for C9 at the concrete classifier-only pipeline and its resolved
form. -/
theorem resolution_frame_effect_witness :
    (∀ k, ¬ k ∈ TRF_PIPES →
      getKey resolvedSeqClfConfig.pipeline k = getKey exampleSeqClfConfig.pipeline k) ∧
    (resolvedSeqClfConfig.pipeline.map Prod.fst).filter
      (fun k => k ∈ exampleSeqClfConfig.pipeline.map Prod.fst) =
      exampleSeqClfConfig.pipeline.map Prod.fst :=
  resolution_frame_effect exampleSeqClfConfig resolvedSeqClfConfig (by decide) rfl

end Camphr
